import Mathlib

/-!
Verification development for the document-structure reconstruction pipeline
of the GoPalPDF translator (src/services/pdfService.ts and src/types.ts).

Coordinates and font metrics are embedded as rationals; JavaScript strings
are embedded as Lean strings.  The external text-measurement capability and
the square-root primitive are passed as explicit function parameters, as the
design notes require for the geometry algorithms.
-/

namespace GoPal

/-! ## Data model (src/types.ts) -/

inductive Alignment where
  | left
  | center
  | right
  | justify
deriving DecidableEq, Repr

structure PdfTextItem where
  text : String
  x : ℚ
  y : ℚ
  width : ℚ
  height : ℚ
  fontSize : ℚ
  fontName : String
  isBold : Bool
  isParagraphStart : Bool
  indent : ℚ
  alignment : Option Alignment
deriving DecidableEq, Repr

structure PdfImageItem where
  data : String
  x : ℚ
  y : ℚ
  width : ℚ
  height : ℚ
deriving DecidableEq, Repr

inductive PathMethod where
  | rect
  | line
deriving DecidableEq, Repr

structure PdfPathItem where
  method : PathMethod
  x : ℚ
  y : ℚ
  width : ℚ
  height : ℚ
  lineWidth : ℚ
  strokeColor : Option String
deriving DecidableEq, Repr

structure PdfTableCell where
  text : String
  isHeader : Bool
  colSpan : ℕ
  rowSpan : ℕ
  align : Option Alignment
deriving DecidableEq, Repr

structure PdfTableRow where
  cells : List PdfTableCell
deriving DecidableEq, Repr

structure PdfTableItem where
  rows : List PdfTableRow
  x : ℚ
  y : ℚ
  width : ℚ
  height : ℚ
  hasBorders : Bool
deriving DecidableEq, Repr

inductive Item where
  | text : PdfTextItem → Item
  | image : PdfImageItem → Item
  | path : PdfPathItem → Item
  | table : PdfTableItem → Item
deriving DecidableEq, Repr

def Item.x : Item → ℚ
  | .text t => t.x
  | .image t => t.x
  | .path t => t.x
  | .table t => t.x

def Item.y : Item → ℚ
  | .text t => t.y
  | .image t => t.y
  | .path t => t.y
  | .table t => t.y

def Item.width : Item → ℚ
  | .text t => t.width
  | .image t => t.width
  | .path t => t.width
  | .table t => t.width

def Item.height : Item → ℚ
  | .text t => t.height
  | .image t => t.height
  | .path t => t.height
  | .table t => t.height

structure PdfPage where
  items : List Item
  width : ℚ
  height : ℚ
deriving DecidableEq, Repr

structure PdfStructure where
  pages : List PdfPage
deriving DecidableEq, Repr

/-! ## Line-Spacing Statistics Estimator (calculateLineSpacingStats) -/

/-- JavaScript Math.round: half-way values round toward positive infinity. -/
def jsRound (q : ℚ) : ℤ := Int.floor (q + 1/2)

/-- JavaScript Math.abs. -/
def jsAbs (q : ℚ) : ℚ := if q < 0 then -q else q

theorem jsAbs_eq_abs (q : ℚ) : jsAbs q = |q| := by
  unfold jsAbs
  rcases lt_or_le q 0 with h | h
  · rw [if_pos h, abs_of_neg h]
  · rw [if_neg (not_lt.mpr h), abs_of_nonneg h]

/-- Absolute differences of consecutive entries of the y-coordinate list. -/
def consecutiveGaps : List ℚ → List ℚ
  | a :: b :: rest => jsAbs (a - b) :: consecutiveGaps (b :: rest)
  | _ => []

/-- Gaps kept by the noise filter: strictly between 5 and 300. -/
def survivingGaps (yCoords : List ℚ) : List ℚ :=
  (consecutiveGaps yCoords).filter (fun g => decide (5 < g ∧ g < 300))

def roundedGaps (gaps : List ℚ) : List ℤ := gaps.map jsRound

/-- Distinct rounded gaps in ascending order: JavaScript objects iterate
integer-like keys in ascending numeric order, and every rounded gap here is a
non-negative integer. -/
def distinctSortedKeys (l : List ℤ) : List ℤ :=
  l.dedup.insertionSort (fun a b => a ≤ b)

def gapFrequencies (gaps : List ℚ) : List (ℤ × ℕ) :=
  (distinctSortedKeys (roundedGaps gaps)).map (fun k => (k, (roundedGaps gaps).count k))

/-- One step of the mode-search loop: a strictly larger frequency replaces the
current best. -/
def modeStep (acc : ℤ × ℕ) (kv : ℤ × ℕ) : ℤ × ℕ :=
  if acc.2 < kv.2 then kv else acc

def gapMode (gaps : List ℚ) : ℤ :=
  ((gapFrequencies gaps).foldl modeStep (0, 0)).1

def meanQ (gaps : List ℚ) : ℚ := gaps.sum / (gaps.length : ℚ)

/-- calculateLineSpacingStats (pdfService.ts lines 350-382). -/
def calculateLineSpacingStats (yCoords : List ℚ) : ℚ × ℚ :=
  if yCoords.length < 2 then (14, 20)
  else
    let gaps := survivingGaps yCoords
    if gaps = [] then (14, 20)
    else
      let mode := gapMode gaps
      let std : ℚ := if 8 < mode then (mode : ℚ) else meanQ gaps
      (std, std * (3/2))

/-- A value is a mode of a list when it occurs in it at least as often as any
other member. -/
def IsModeOf (m : ℤ) (l : List ℤ) : Prop :=
  m ∈ l ∧ ∀ k ∈ l, l.count k ≤ l.count m

theorem foldl_modeStep_spec (ps : List (ℤ × ℕ)) (acc : ℤ × ℕ) :
    (ps.foldl modeStep acc = acc ∨ ps.foldl modeStep acc ∈ ps) ∧
    acc.2 ≤ (ps.foldl modeStep acc).2 ∧
    ∀ kv ∈ ps, kv.2 ≤ (ps.foldl modeStep acc).2 := by
  induction ps generalizing acc with
  | nil => simp
  | cons hd tl ih =>
    simp only [List.foldl_cons]
    rcases ih (modeStep acc hd) with ⟨h1, h2, h3⟩
    have hstep_ge_acc : acc.2 ≤ (modeStep acc hd).2 := by
      unfold modeStep; split <;> simp_all [le_of_lt]
    have hstep_ge_hd : hd.2 ≤ (modeStep acc hd).2 := by
      unfold modeStep; split
      · exact le_rfl
      · exact le_of_not_lt (by assumption)
    refine ⟨?_, le_trans hstep_ge_acc h2, ?_⟩
    · rcases h1 with h1 | h1
      · rw [h1]; unfold modeStep; split
        · exact Or.inr (List.mem_cons_self _ _)
        · exact Or.inl rfl
      · exact Or.inr (List.mem_cons_of_mem _ h1)
    · intro kv hkv
      rcases List.mem_cons.mp hkv with rfl | hkv
      · exact le_trans hstep_ge_hd h2
      · exact h3 kv hkv

theorem mem_distinctSortedKeys {k : ℤ} {l : List ℤ} :
    k ∈ distinctSortedKeys l ↔ k ∈ l := by
  unfold distinctSortedKeys
  rw [(List.perm_insertionSort _ _).mem_iff, List.mem_dedup]

theorem mem_gapFrequencies {k : ℤ} {gaps : List ℚ} (h : k ∈ roundedGaps gaps) :
    (k, (roundedGaps gaps).count k) ∈ gapFrequencies gaps :=
  List.mem_map_of_mem _ (mem_distinctSortedKeys.mpr h)

theorem gapMode_isMode (gaps : List ℚ) (h : gaps ≠ []) :
    IsModeOf (gapMode gaps) (roundedGaps gaps) := by
  have hR : roundedGaps gaps ≠ [] := by
    unfold roundedGaps; simpa using h
  obtain ⟨k₁, hk₁⟩ := List.exists_mem_of_ne_nil _ hR
  obtain ⟨hmem, _, hmax⟩ := foldl_modeStep_spec (gapFrequencies gaps) (0, 0)
  rcases hmem with hzero | hmemF
  · exfalso
    have h0 := hmax _ (mem_gapFrequencies hk₁)
    rw [hzero] at h0
    have hpos : 0 < (roundedGaps gaps).count k₁ := List.count_pos_iff.mpr hk₁
    simp only at h0
    omega
  · obtain ⟨k, hkmem, hk⟩ := List.mem_map.mp hmemF
    have h1 : gapMode gaps = k := by
      unfold gapMode; rw [← hk]
    have h2 : ((gapFrequencies gaps).foldl modeStep (0, 0)).2
        = (roundedGaps gaps).count (gapMode gaps) := by
      rw [← hk, h1]
    constructor
    · exact h1 ▸ mem_distinctSortedKeys.mp hkmem
    · intro j hj
      have hle := hmax _ (mem_gapFrequencies hj)
      rw [h2] at hle
      exact hle

theorem consecutiveGaps_eq_nil_of_short {ys : List ℚ} (h : ys.length < 2) :
    consecutiveGaps ys = [] := by
  match ys with
  | [] => rfl
  | [a] => rfl
  | a :: b :: rest => exact absurd h (by simp)

theorem calcStats_default {zs : List ℚ} (h : survivingGaps zs = []) :
    calculateLineSpacingStats zs = (14, 20) := by
  unfold calculateLineSpacingStats
  split
  · rfl
  · simp only [h, if_pos]

theorem calcStats_nondefault {ys : List ℚ} (h : survivingGaps ys ≠ []) :
    calculateLineSpacingStats ys =
      (if 8 < gapMode (survivingGaps ys) then ((gapMode (survivingGaps ys) : ℤ) : ℚ)
       else meanQ (survivingGaps ys),
       (if 8 < gapMode (survivingGaps ys) then ((gapMode (survivingGaps ys) : ℤ) : ℚ)
        else meanQ (survivingGaps ys)) * (3/2)) := by
  have hlen : ¬ ys.length < 2 := by
    intro hlt
    exact h (by unfold survivingGaps; rw [consecutiveGaps_eq_nil_of_short hlt]; rfl)
  unfold calculateLineSpacingStats
  rw [if_neg hlen, if_neg h]

/-- Claim C2: the stats estimator keeps only consecutive absolute gaps strictly
between 5 and 300, returns stdLineHeight = the mode of the rounded surviving
gaps when that mode exceeds 8 and otherwise the mean of the surviving gaps,
returns paraGapThreshold = stdLineHeight × 1.5, returns the defaults (14, 20)
exactly when no gap survives, and maps [100, 114, 140, 154] to (14, 21). -/
theorem C2_lineSpacingStats (ys : List ℚ) (h : survivingGaps ys ≠ []) :
    survivingGaps ys = (consecutiveGaps ys).filter (fun g => decide (5 < g ∧ g < 300)) ∧
    (calculateLineSpacingStats ys).1 =
      (if 8 < gapMode (survivingGaps ys) then ((gapMode (survivingGaps ys) : ℤ) : ℚ)
       else meanQ (survivingGaps ys)) ∧
    (calculateLineSpacingStats ys).2 = (calculateLineSpacingStats ys).1 * (3/2) ∧
    IsModeOf (gapMode (survivingGaps ys)) (roundedGaps (survivingGaps ys)) ∧
    (∀ zs : List ℚ, calculateLineSpacingStats zs = (14, 20) ↔ survivingGaps zs = []) ∧
    calculateLineSpacingStats [100, 114, 140, 154] = (14, 21) := by
  refine ⟨rfl, ?_, ?_, gapMode_isMode _ h, ?_, by with_unfolding_all rfl⟩
  · rw [calcStats_nondefault h]
  · rw [calcStats_nondefault h]
  · intro zs
    constructor
    · intro heq
      by_contra hne
      rw [calcStats_nondefault hne] at heq
      have h1 := congrArg Prod.fst heq
      have h2 := congrArg Prod.snd heq
      simp only at h1 h2
      rw [h1] at h2
      norm_num at h2
    · exact calcStats_default

/-- Witness for C2 at the concrete y-sequence of the spec scenario. -/
theorem C2_lineSpacingStats_witness :
    survivingGaps [100, 114, 140, 154] ≠ [] ∧
    calculateLineSpacingStats [100, 114, 140, 154] = (14, 21) :=
  ⟨by with_unfolding_all decide,
   (C2_lineSpacingStats [100, 114, 140, 154] (by with_unfolding_all decide)).2.2.2.2.2⟩

/-! ## Text Block Merger (mergeTextBlocks, pdfService.ts lines 457-515) -/

/-- The character class matched by the \s regex escape and removed by
String.prototype.trim in JavaScript. -/
def jsWhitespace : List Char :=
  ['\t', '\n', '\u000b', '\u000c', '\r', '\u0020', '\u00a0', '\u1680',
   '\u2000', '\u2001', '\u2002', '\u2003', '\u2004', '\u2005', '\u2006',
   '\u2007', '\u2008', '\u2009', '\u200a', '\u2028', '\u2029', '\u202f',
   '\u205f', '\u3000', '\ufeff']

def isWSChar (c : Char) : Bool := decide (c ∈ jsWhitespace)

/-- JavaScript String.prototype.trim. -/
def jsTrim (s : String) : String :=
  String.mk (((s.data.dropWhile isWSChar).reverse.dropWhile isWSChar).reverse)

def bulletChars : List Char := ['•', '●', '-', '*']

/-- Matcher for the regex pattern of a bullet glyph followed by whitespace. -/
def isBulletMarker : List Char → Bool
  | c :: d :: _ => decide (c ∈ bulletChars) && isWSChar d
  | _ => false

/-- Continuation matcher after at least one digit has been consumed: more
digits, then a dot or closing parenthesis, then whitespace. -/
def numMarkerTail : List Char → Bool
  | [] => false
  | c :: rest =>
    if c.isDigit then numMarkerTail rest
    else (decide (c = '.') || decide (c = ')')) &&
      (match rest with
       | d :: _ => isWSChar d
       | [] => false)

/-- Matcher for the regex pattern of one or more digits, a dot or closing
parenthesis, then whitespace. -/
def isNumMarker : List Char → Bool
  | c :: rest => c.isDigit && numMarkerTail rest
  | [] => false

/-- The list-marker test applied to the second item's text in mergeTextBlocks. -/
def isListText (s : String) : Bool := isBulletMarker s.data || isNumMarker s.data

/-- The fusion test of mergeTextBlocks (pdfService.ts lines 474-487). -/
def shouldMerge (cur nxt : PdfTextItem) : Bool :=
  decide (cur.fontName = nxt.fontName) &&
  decide (jsAbs (cur.fontSize - nxt.fontSize) < 2) &&
  (decide (0 < nxt.y - cur.y) && decide (nxt.y - cur.y < cur.fontSize * (5/2))) &&
  (decide (jsAbs (cur.x - nxt.x) < 20) ||
    (decide (cur.x - 40 ≤ nxt.x) && decide (nxt.x + nxt.width ≤ cur.x + cur.width + 40))) &&
  !(isListText nxt.text)

/-- The fusion action of mergeTextBlocks (pdfService.ts lines 489-507):
de-hyphenating or space-joining concatenation, bounding-box update, and the
hanging-indent correction. -/
def mergeTwo (cur nxt : PdfTextItem) : PdfTextItem :=
  let newText :=
    if (jsTrim cur.text).data.getLast? = some '-' then
      String.mk ((jsTrim cur.text).data.dropLast) ++ nxt.text
    else cur.text ++ " " ++ nxt.text
  let newX := min cur.x nxt.x
  let newWidth := max (cur.x + cur.width) (nxt.x + nxt.width) - newX
  let newHeight := (nxt.y + nxt.height) - cur.y
  let adjusted := nxt.x < cur.x - 5
  { cur with
      text := newText,
      x := if adjusted then nxt.x else cur.x,
      indent := if adjusted then cur.indent + (cur.x - nxt.x) else cur.indent,
      width := newWidth,
      height := newHeight }

def mergeLoop : Item → List Item → List Item
  | cur, [] => [cur]
  | cur, nxt :: rest =>
    match cur, nxt with
    | Item.text c, Item.text n =>
      if shouldMerge c n then mergeLoop (Item.text (mergeTwo c n)) rest
      else Item.text c :: mergeLoop (Item.text n) rest
    | c, n => c :: mergeLoop n rest

/-- mergeTextBlocks (pdfService.ts lines 457-515). -/
def mergeTextBlocks : List Item → List Item
  | [] => []
  | first :: rest => mergeLoop first rest

/-- Claim-side reading of the list-marker pattern: the text starts with a
bullet glyph followed by whitespace, or with one or more digits followed by a
dot or closing parenthesis and then whitespace. -/
def ListMarkerText (s : String) : Prop :=
  (∃ c w rest, s.data = c :: w :: rest ∧ c ∈ bulletChars ∧ isWSChar w = true) ∨
  (∃ ds p w rest, s.data = ds ++ p :: w :: rest ∧ ds ≠ [] ∧
    (∀ d ∈ ds, d.isDigit = true) ∧ (p = '.' ∨ p = ')') ∧ isWSChar w = true)

/-- Claim-side reading of the fusion condition of the Text Block Merger. -/
def MergeCondition (cur nxt : PdfTextItem) : Prop :=
  cur.fontName = nxt.fontName ∧
  jsAbs (cur.fontSize - nxt.fontSize) < 2 ∧
  (0 < nxt.y - cur.y ∧ nxt.y - cur.y < cur.fontSize * (5/2)) ∧
  (jsAbs (cur.x - nxt.x) < 20 ∨
    (cur.x - 40 ≤ nxt.x ∧ nxt.x + nxt.width ≤ cur.x + cur.width + 40)) ∧
  ¬ ListMarkerText nxt.text

theorem isBulletMarker_iff (cs : List Char) :
    isBulletMarker cs = true ↔
      ∃ c w rest, cs = c :: w :: rest ∧ c ∈ bulletChars ∧ isWSChar w = true := by
  match cs with
  | [] => simp [isBulletMarker]
  | [c] => simp [isBulletMarker]
  | c :: d :: rest =>
    simp only [isBulletMarker, Bool.and_eq_true, decide_eq_true_eq]
    constructor
    · rintro ⟨h1, h2⟩
      exact ⟨c, d, rest, rfl, h1, h2⟩
    · rintro ⟨c', w', r', heq, h1, h2⟩
      obtain ⟨rfl, rfl, rfl⟩ : c = c' ∧ d = w' ∧ rest = r' := by
        injection heq with e1 e2
        injection e2 with e2 e3
        exact ⟨e1, e2, e3⟩
      exact ⟨h1, h2⟩

theorem numMarkerTail_iff (cs : List Char) :
    numMarkerTail cs = true ↔
      ∃ ds p w rest, cs = ds ++ p :: w :: rest ∧ (∀ d ∈ ds, d.isDigit = true) ∧
        (p = '.' ∨ p = ')') ∧ isWSChar w = true := by
  induction cs with
  | nil =>
    constructor
    · intro h
      exact absurd h (by simp [numMarkerTail])
    · rintro ⟨ds, p, w, rest, heq, -⟩
      exact absurd heq (by simp)
  | cons c rest ih =>
    by_cases hd : c.isDigit = true
    · have hunf : numMarkerTail (c :: rest) = numMarkerTail rest := by
        simp [numMarkerTail, hd]
      rw [hunf, ih]
      constructor
      · rintro ⟨ds, p, w, r2, heq, hds, hp, hw⟩
        refine ⟨c :: ds, p, w, r2, by simp [heq], ?_, hp, hw⟩
        intro d hdm
        rcases List.mem_cons.mp hdm with rfl | hdm
        · exact hd
        · exact hds d hdm
      · rintro ⟨ds, p, w, r2, heq, hds, hp, hw⟩
        match ds, heq with
        | [], heq =>
          exfalso
          have hpc : c = p := by
            simpa using congrArg (fun l => l.head?) heq
          rcases hp with rfl | rfl <;> rw [hpc] at hd <;> exact absurd hd (by decide)
        | d0 :: ds', heq =>
          have h1 : rest = ds' ++ p :: w :: r2 := by
            simpa using congrArg (fun l => l.tail) heq
          refine ⟨ds', p, w, r2, h1, ?_, hp, hw⟩
          intro d hdm
          exact hds d (List.mem_cons_of_mem _ hdm)
    · cases rest with
      | nil =>
        constructor
        · intro h
          simp [numMarkerTail, hd] at h
        · rintro ⟨ds, p, w, r2, heq, hds, hp, hw⟩
          exfalso
          have := congrArg List.length heq
          simp [List.length_append] at this
          omega
      | cons w r2 =>
        constructor
        · intro h
          simp only [numMarkerTail, hd, if_false, Bool.false_eq_true, if_neg,
            Bool.and_eq_true, Bool.or_eq_true, decide_eq_true_eq] at h
          exact ⟨[], c, w, r2, rfl, by simp, h.1, h.2⟩
        · rintro ⟨ds, p, w', r2', heq, hds, hp, hw⟩
          match ds, heq with
          | [], heq =>
            obtain ⟨rfl, rfl, rfl⟩ : p = c ∧ w' = w ∧ r2' = r2 := by
              injection heq with e1 e2
              injection e2 with e2 e3
              exact ⟨e1.symm, e2.symm, e3.symm⟩
            rcases hp with rfl | rfl <;> simp [numMarkerTail, hw]
          | d0 :: ds', heq =>
            exfalso
            have hc : c = d0 := by
              simpa using congrArg (fun l => l.head?) heq
            exact hd (hc ▸ hds d0 (List.mem_cons_self _ _))

theorem isNumMarker_iff (cs : List Char) :
    isNumMarker cs = true ↔
      ∃ ds p w rest, cs = ds ++ p :: w :: rest ∧ ds ≠ [] ∧
        (∀ d ∈ ds, d.isDigit = true) ∧ (p = '.' ∨ p = ')') ∧ isWSChar w = true := by
  match cs with
  | [] =>
    constructor
    · intro h
      exact absurd h (by simp [isNumMarker])
    · rintro ⟨ds, p, w, rest, heq, -⟩
      exact absurd heq (by simp)
  | c :: rest =>
    rw [show isNumMarker (c :: rest) = (c.isDigit && numMarkerTail rest) from rfl,
      Bool.and_eq_true, numMarkerTail_iff]
    constructor
    · rintro ⟨hd, ds, p, w, r2, heq, hds, hp, hw⟩
      refine ⟨c :: ds, p, w, r2, by simp [heq], by simp, ?_, hp, hw⟩
      intro d hdm
      rcases List.mem_cons.mp hdm with rfl | hdm
      · exact hd
      · exact hds d hdm
    · rintro ⟨ds, p, w, r2, heq, hne, hds, hp, hw⟩
      match ds, heq with
      | [], heq => exact absurd rfl hne
      | d0 :: ds', heq =>
        have h0 : c = d0 := by
          simpa using congrArg (fun l => l.head?) heq
        have h1 : rest = ds' ++ p :: w :: r2 := by
          simpa using congrArg (fun l => l.tail) heq
        have hcd : c.isDigit = true := by
          rw [h0]
          exact hds d0 (List.mem_cons_self _ _)
        refine ⟨hcd, ds', p, w, r2, h1, ?_, hp, hw⟩
        intro d hdm
        exact hds d (List.mem_cons_of_mem _ hdm)

theorem isListText_iff (s : String) : isListText s = true ↔ ListMarkerText s := by
  unfold isListText ListMarkerText
  rw [Bool.or_eq_true, isBulletMarker_iff, isNumMarker_iff]

theorem shouldMerge_iff (cur nxt : PdfTextItem) :
    shouldMerge cur nxt = true ↔ MergeCondition cur nxt := by
  unfold shouldMerge MergeCondition
  rw [← isListText_iff]
  simp only [Bool.and_eq_true, Bool.or_eq_true, decide_eq_true_eq,
    Bool.not_eq_true', Bool.not_eq_true, ← Bool.not_eq_true]
  tauto

/-- The concrete paragraph item of the list-exclusion scenario. -/
def paraItem : PdfTextItem :=
  { text := "A paragraph of body text", x := 0, y := 0, width := 100, height := 10,
    fontSize := 10, fontName := "F1", isBold := false, isParagraphStart := true,
    indent := 0, alignment := none }

/-- The concrete bullet item of the list-exclusion scenario. -/
def bulletItem : PdfTextItem :=
  { paraItem with text := "• Item one", y := 12, isParagraphStart := false }

/-- bulletItem with its bullet marker removed: all other fusion criteria pass. -/
def plainItem : PdfTextItem := { bulletItem with text := "Item one" }

set_option maxRecDepth 4000 in
/-- Claim C3: two consecutive text items are merged exactly when the fontName
matches, the font sizes differ by less than 2, the vertical gap lies strictly
in (0, fontSize × 2.5), the items are left-aligned within 20 units or the
second span lies within the first span widened by 40 units each side, and the
second text does not carry a list marker; in particular a paragraph followed
by a text item starting with a bullet and a space never merges even though all
other criteria pass. -/
theorem C3_mergeCriteria (cur nxt : PdfTextItem) :
    (mergeTextBlocks [Item.text cur, Item.text nxt]
      = (if shouldMerge cur nxt = true then [Item.text (mergeTwo cur nxt)]
         else [Item.text cur, Item.text nxt])) ∧
    (shouldMerge cur nxt = true ↔ MergeCondition cur nxt) ∧
    mergeTextBlocks [Item.text paraItem, Item.text bulletItem]
      = [Item.text paraItem, Item.text bulletItem] ∧
    shouldMerge paraItem plainItem = true ∧
    bulletItem = { plainItem with text := "• Item one" } := by
  refine ⟨?_, shouldMerge_iff cur nxt, ?_, ?_, rfl⟩
  · by_cases h : shouldMerge cur nxt = true <;>
      simp [mergeTextBlocks, mergeLoop, h]
  · have h : shouldMerge paraItem bulletItem = false := by
      with_unfolding_all decide
    simp [mergeTextBlocks, mergeLoop, h]
  · with_unfolding_all decide

theorem string_length_append (s t : String) : (s ++ t).length = s.length + t.length := by
  show (s.data ++ t.data).length = s.data.length + t.data.length
  exact List.length_append _ _

/-- The merged-text length in the de-hyphenation branch, counted against the
trimmed first text. -/
theorem mergeTwo_hyphen_length (a b : PdfTextItem)
    (hh : (jsTrim a.text).data.getLast? = some '-') :
    (mergeTwo a b).text.length + 1 = (jsTrim a.text).length + b.text.length := by
  have hne : (jsTrim a.text).data ≠ [] := by
    intro hnil
    rw [hnil] at hh
    simp at hh
  simp only [mergeTwo, if_pos hh]
  have h1 : (String.mk ((jsTrim a.text).data.dropLast) ++ b.text).length
      = (jsTrim a.text).data.dropLast.length + b.text.length := by
    rw [string_length_append]
    rfl
  have h2 : (jsTrim a.text).data.dropLast.length = (jsTrim a.text).data.length - 1 :=
    List.length_dropLast _
  have h3 : 1 ≤ (jsTrim a.text).data.length := List.length_pos.mpr hne
  have h4 : (jsTrim a.text).length = (jsTrim a.text).data.length := rfl
  simp only [h1, h2, h4]
  omega

/-- The concrete hyphenation scenario: first item. -/
def hyphenItem : PdfTextItem := { paraItem with text := "inter-" }

/-- The concrete hyphenation scenario: second item. -/
def nationalItem : PdfTextItem :=
  { paraItem with text := "national", y := 12, isParagraphStart := false }

/-- hyphenItem with leading whitespace, breaking the claimed length identity. -/
def wsHyphenItem : PdfTextItem := { paraItem with text := " inter-" }

/-- Claim C4 counterexample: for the mergeable pair with texts " inter-" and
"national" the first item's trimmed text ends with a hyphen, yet the merged
text has 13 characters, not len(a)+len(b)−1 = 14, because the de-hyphenation
branch concatenates from the trimmed first text. -/
theorem C4_counterexample :
    shouldMerge wsHyphenItem nationalItem = true ∧
    (jsTrim wsHyphenItem.text).data.getLast? = some '-' ∧
    (mergeTwo wsHyphenItem nationalItem).text.length ≠
      wsHyphenItem.text.length + nationalItem.text.length - 1 := by
  with_unfolding_all decide

/-- Claim C4 (amended): for every mergeable pair, the merged text has
len(a)+len(b)+1 characters when a's trimmed text does not end with a hyphen;
when it does, it has len(trim(a))−1+len(b) characters, which equals
len(a)+len(b)−1 exactly when a equals its trimmed form; merging "inter-" with
"national" yields "international". -/
theorem C4_mergeTextLength (a b : PdfTextItem) (h : shouldMerge a b = true) :
    ((jsTrim a.text).data.getLast? ≠ some '-' →
      (mergeTwo a b).text.length = a.text.length + b.text.length + 1) ∧
    ((jsTrim a.text).data.getLast? = some '-' →
      (mergeTwo a b).text.length + 1 = (jsTrim a.text).length + b.text.length) ∧
    ((jsTrim a.text).data.getLast? = some '-' → jsTrim a.text = a.text →
      (mergeTwo a b).text.length + 1 = a.text.length + b.text.length) ∧
    shouldMerge hyphenItem nationalItem = true ∧
    (mergeTwo hyphenItem nationalItem).text = "international" := by
  refine ⟨?_, mergeTwo_hyphen_length a b, ?_, by with_unfolding_all decide,
    by with_unfolding_all decide⟩
  · intro hnh
    simp only [mergeTwo, if_neg hnh]
    rw [string_length_append, string_length_append]
    have hsp : (" " : String).length = 1 := rfl
    omega
  · intro hh heq
    rw [mergeTwo_hyphen_length a b hh, heq]

/-- Witness for C4 at the concrete hyphenation scenario of the spec. -/
theorem C4_mergeTextLength_witness :
    shouldMerge hyphenItem nationalItem = true ∧
    (mergeTwo hyphenItem nationalItem).text.length + 1
      = (jsTrim hyphenItem.text).length + nationalItem.text.length :=
  ⟨by with_unfolding_all decide,
   (C4_mergeTextLength hyphenItem nationalItem (by with_unfolding_all decide)).2.1
     (by with_unfolding_all decide)⟩

/-- A tall first line whose bottom edge lies below the second item's bottom. -/
def tallItem : PdfTextItem :=
  { paraItem with text := "tall", x := 10, y := 0, width := 100, height := 30 }

/-- A second item slightly left of the first (by less than 5 units) and with a
higher bottom edge. -/
def overlapItem : PdfTextItem :=
  { paraItem with
    text := "next"
    x := 7
    y := 12
    width := 50
    height := 10
    isParagraphStart := false }

/-- Claim C6 counterexample: for the mergeable pair tallItem/overlapItem the
merged box is not the rectangular union: x stays 10 (the second item is less
than 5 units further left, so the hanging-indent correction does not fire even
though min x = 7), the right edge becomes 113 instead of max(110, 57) = 110,
and the bottom edge becomes 22 (the second item's bottom) instead of
max(30, 22) = 30. -/
theorem C6_counterexample :
    shouldMerge tallItem overlapItem = true ∧
    ¬ ((mergeTwo tallItem overlapItem).x = min tallItem.x overlapItem.x ∧
       (mergeTwo tallItem overlapItem).x + (mergeTwo tallItem overlapItem).width
         = max (tallItem.x + tallItem.width) (overlapItem.x + overlapItem.width) ∧
       (mergeTwo tallItem overlapItem).y = tallItem.y ∧
       (mergeTwo tallItem overlapItem).y + (mergeTwo tallItem overlapItem).height
         = max (tallItem.y + tallItem.height) (overlapItem.y + overlapItem.height)) := by
  with_unfolding_all decide

/-- Claim C6 (amended): the merged top is the first item's y, the merged width
spans from min x to the max right edge, the merged bottom is the second item's
bottom edge (not the union bottom), and the merged x is the second item's x
only when it lies more than 5 units further left, and otherwise the first
item's x; when the second item is not in the band (x−5, x), x and the right
edge do agree with the rectangular union. -/
theorem C6_mergedBox (cur nxt : PdfTextItem) (h : shouldMerge cur nxt = true) :
    (mergeTwo cur nxt).y = cur.y ∧
    (mergeTwo cur nxt).width
      = max (cur.x + cur.width) (nxt.x + nxt.width) - min cur.x nxt.x ∧
    (mergeTwo cur nxt).y + (mergeTwo cur nxt).height = nxt.y + nxt.height ∧
    (mergeTwo cur nxt).x = (if nxt.x < cur.x - 5 then nxt.x else cur.x) ∧
    (nxt.x < cur.x - 5 ∨ cur.x ≤ nxt.x →
      (mergeTwo cur nxt).x = min cur.x nxt.x ∧
      (mergeTwo cur nxt).x + (mergeTwo cur nxt).width
        = max (cur.x + cur.width) (nxt.x + nxt.width)) := by
  refine ⟨rfl, rfl, by simp [mergeTwo], rfl, ?_⟩
  intro hcase
  have hx : (mergeTwo cur nxt).x = min cur.x nxt.x := by
    simp only [mergeTwo]
    rcases hcase with hc | hc
    · rw [if_pos hc, min_eq_right (le_of_lt (by linarith))]
    · rw [if_neg (by intro hlt; linarith), min_eq_left hc]
  refine ⟨hx, ?_⟩
  have hw : (mergeTwo cur nxt).width
      = max (cur.x + cur.width) (nxt.x + nxt.width) - min cur.x nxt.x := rfl
  rw [hx, hw]
  ring

/-- Witness for C6 at a concrete mergeable pair outside the problem band. -/
theorem C6_mergedBox_witness :
    shouldMerge hyphenItem nationalItem = true ∧
    (mergeTwo hyphenItem nationalItem).y = hyphenItem.y ∧
    (hyphenItem.x ≤ nationalItem.x) :=
  ⟨by with_unfolding_all decide,
   (C6_mergedBox hyphenItem nationalItem (by with_unfolding_all decide)).1,
   by with_unfolding_all decide⟩

/-! ## Auto-Fit Layout Renderer (renderStructureToElement, pdfService.ts
lines 679-708).  The DOM text-measurement capability and Math.sqrt are passed
as explicit function parameters. -/

/-- Estimated wrapped line count: ceil(measuredWidth / (boxWidth × 0.95)). -/
def estimatedLines (measuredW boxW : ℚ) : ℤ :=
  Int.ceil (measuredW / (boxW * (19/20)))

/-- Estimated required vertical space: lineCount × fontSize × lineSpacing. -/
def estimatedRequiredHeight (measuredW boxW fontSize lineSpacing : ℚ) : ℚ :=
  ((estimatedLines measuredW boxW : ℤ) : ℚ) * (fontSize * lineSpacing)

/-- The bounded font down-scaling of the auto-fit renderer (pdfService.ts
lines 699-708). -/
def autoFitFontSize (sqrtFn : ℚ → ℚ) (measuredW boxW boxH lineSpacing f : ℚ) : ℚ :=
  let reqH := estimatedRequiredHeight measuredW boxW f lineSpacing
  if boxH * (11/10) < reqH then
    max (f * sqrtFn (boxH / reqH)) (f * (3/5))
  else if estimatedLines measuredW boxW = 1 ∧ boxW < measuredW then
    max (f * (boxW / measuredW)) (f * (3/5))
  else f

/-- Claim C7: the renderer shrinks by sqrt(boxHeight / requiredHeight) exactly
when the estimated required height exceeds the box height by more than 10%,
otherwise shrinks by boxWidth / measuredWidth exactly when the estimate is a
single line wider than the box, and the result always stays between 60% of the
nominal size and the nominal size. -/
theorem C7_autoFitBounds (sqrtFn : ℚ → ℚ) (measuredW boxW boxH lineSpacing f : ℚ)
    (hsqrt : ∀ q : ℚ, 0 < q → q < 1 → 0 ≤ sqrtFn q ∧ sqrtFn q ≤ 1)
    (hf : 0 < f) (hW : 0 < boxW) (hH : 0 < boxH) :
    (boxH * (11/10) < estimatedRequiredHeight measuredW boxW f lineSpacing →
      autoFitFontSize sqrtFn measuredW boxW boxH lineSpacing f
        = max (f * sqrtFn (boxH / estimatedRequiredHeight measuredW boxW f lineSpacing))
            (f * (3/5))) ∧
    (¬ boxH * (11/10) < estimatedRequiredHeight measuredW boxW f lineSpacing →
      estimatedLines measuredW boxW = 1 → boxW < measuredW →
      autoFitFontSize sqrtFn measuredW boxW boxH lineSpacing f
        = max (f * (boxW / measuredW)) (f * (3/5))) ∧
    (¬ boxH * (11/10) < estimatedRequiredHeight measuredW boxW f lineSpacing →
      ¬ (estimatedLines measuredW boxW = 1 ∧ boxW < measuredW) →
      autoFitFontSize sqrtFn measuredW boxW boxH lineSpacing f = f) ∧
    f * (3/5) ≤ autoFitFontSize sqrtFn measuredW boxW boxH lineSpacing f ∧
    autoFitFontSize sqrtFn measuredW boxW boxH lineSpacing f ≤ f := by
  have hfloor : f * (3/5) ≤ f := by nlinarith
  have hchar1 : boxH * (11/10) < estimatedRequiredHeight measuredW boxW f lineSpacing →
      autoFitFontSize sqrtFn measuredW boxW boxH lineSpacing f
        = max (f * sqrtFn (boxH / estimatedRequiredHeight measuredW boxW f lineSpacing))
            (f * (3/5)) := by
    intro hb
    simp only [autoFitFontSize, if_pos hb]
  have hchar2 : ¬ boxH * (11/10) < estimatedRequiredHeight measuredW boxW f lineSpacing →
      (estimatedLines measuredW boxW = 1 ∧ boxW < measuredW) →
      autoFitFontSize sqrtFn measuredW boxW boxH lineSpacing f
        = max (f * (boxW / measuredW)) (f * (3/5)) := by
    intro hb h12
    simp only [autoFitFontSize, if_neg hb, if_pos h12]
  have hchar3 : ¬ boxH * (11/10) < estimatedRequiredHeight measuredW boxW f lineSpacing →
      ¬ (estimatedLines measuredW boxW = 1 ∧ boxW < measuredW) →
      autoFitFontSize sqrtFn measuredW boxW boxH lineSpacing f = f := by
    intro hb h12
    simp only [autoFitFontSize, if_neg hb, if_neg h12]
  refine ⟨hchar1, fun hb h1 h2 => hchar2 hb ⟨h1, h2⟩, hchar3, ?_, ?_⟩
  · by_cases hb : boxH * (11/10) < estimatedRequiredHeight measuredW boxW f lineSpacing
    · rw [hchar1 hb]
      exact le_max_right _ _
    · by_cases h12 : estimatedLines measuredW boxW = 1 ∧ boxW < measuredW
      · rw [hchar2 hb h12]
        exact le_max_right _ _
      · rw [hchar3 hb h12]
        exact hfloor
  · by_cases hb : boxH * (11/10) < estimatedRequiredHeight measuredW boxW f lineSpacing
    · rw [hchar1 hb]
      have hreq : 0 < estimatedRequiredHeight measuredW boxW f lineSpacing := by nlinarith
      have hr0 : 0 < boxH / estimatedRequiredHeight measuredW boxW f lineSpacing :=
        div_pos hH hreq
      have hr1 : boxH / estimatedRequiredHeight measuredW boxW f lineSpacing < 1 := by
        rw [div_lt_one hreq]
        nlinarith
      obtain ⟨hs0, hs1⟩ := hsqrt _ hr0 hr1
      have hle : f * sqrtFn (boxH / estimatedRequiredHeight measuredW boxW f lineSpacing)
          ≤ f := by nlinarith
      exact max_le hle hfloor
    · by_cases h12 : estimatedLines measuredW boxW = 1 ∧ boxW < measuredW
      · rw [hchar2 hb h12]
        have hmw : 0 < measuredW := lt_trans hW h12.2
        have hratio : boxW / measuredW < 1 := by
          rw [div_lt_one hmw]
          exact h12.2
        have hrpos : 0 ≤ boxW / measuredW := le_of_lt (div_pos hW hmw)
        have hle : f * (boxW / measuredW) ≤ f := by nlinarith
        exact max_le hle hfloor
      · rw [hchar3 hb h12]

/-- Witness for C7 with the identity in place of sqrt and a text estimated at
five lines in a short box: the scaled size hits the 60% floor. -/
theorem C7_autoFitBounds_witness :
    (10 : ℚ) * (3/5) ≤ autoFitFontSize (fun q => q) 400 100 10 (3/2) 10 ∧
    autoFitFontSize (fun q => q) 400 100 10 (3/2) 10 ≤ 10 :=
  have h := C7_autoFitBounds (fun q => q) 400 100 10 (3/2) 10
    (fun _ h0 h1 => ⟨le_of_lt h0, le_of_lt h1⟩)
    (by norm_num) (by norm_num) (by norm_num)
  ⟨h.2.2.2.1, h.2.2.2.2⟩

/-- Claim C8: with the measurement function monotone and non-negative in the
font size, the estimated required height is monotone non-decreasing in the
nominal font size. -/
theorem C8_requiredHeightMonotone (mw : ℚ → ℚ) (boxW lineSpacing f1 f2 : ℚ)
    (hmono : ∀ a b : ℚ, a ≤ b → mw a ≤ mw b) (hnn : ∀ a : ℚ, 0 ≤ mw a)
    (hW : 0 < boxW) (hls : 0 ≤ lineSpacing) (h0 : 0 ≤ f1) (h12 : f1 ≤ f2) :
    estimatedRequiredHeight (mw f1) boxW f1 lineSpacing
      ≤ estimatedRequiredHeight (mw f2) boxW f2 lineSpacing := by
  have hden : (0:ℚ) < boxW * (19/20) := by nlinarith
  have hdiv : mw f1 / (boxW * (19/20)) ≤ mw f2 / (boxW * (19/20)) :=
    (div_le_div_iff_of_pos_right hden).mpr (hmono _ _ h12)
  have hceil : estimatedLines (mw f1) boxW ≤ estimatedLines (mw f2) boxW :=
    Int.ceil_le_ceil hdiv
  have hc0 : (0:ℤ) ≤ estimatedLines (mw f1) boxW := by
    unfold estimatedLines
    exact Int.ceil_nonneg (div_nonneg (hnn f1) (le_of_lt hden))
  unfold estimatedRequiredHeight
  have hcast1 : (0:ℚ) ≤ ((estimatedLines (mw f1) boxW : ℤ) : ℚ) := by
    exact_mod_cast hc0
  have hcast2 : ((estimatedLines (mw f1) boxW : ℤ) : ℚ)
      ≤ ((estimatedLines (mw f2) boxW : ℤ) : ℚ) := by
    exact_mod_cast hceil
  have hfs : f1 * lineSpacing ≤ f2 * lineSpacing :=
    mul_le_mul_of_nonneg_right h12 hls
  exact mul_le_mul hcast2 hfs (mul_nonneg h0 hls) (le_trans hcast1 hcast2)

/-- Witness for C8 with a constant measurement function. -/
theorem C8_requiredHeightMonotone_witness :
    estimatedRequiredHeight 1 1 1 1 ≤ estimatedRequiredHeight 1 1 2 1 :=
  C8_requiredHeightMonotone (fun _ => 1) 1 1 1 2
    (fun _ _ _ => le_rfl) (fun _ => by norm_num)
    (by norm_num) (by norm_num) (by norm_num) (by norm_num)

/-! ## Reading-Order Reconstructor (reorderItemsByReadingFlow, pdfService.ts
lines 384-455) -/

inductive Axis where
  | x
  | y
deriving DecidableEq, Repr

/-- MIN_COL_GAP for the x axis, MIN_ROW_GAP for the y axis. -/
def minGapSize : Axis → ℚ
  | .x => 14
  | .y => 6

/-- Only text, image and table items contribute to split decisions. -/
def isContributor : Item → Bool
  | .text _ => true
  | .image _ => true
  | .path _ => false
  | .table _ => true

/-- A projected interval with start and end coordinate. -/
structure Iv where
  s : ℚ
  e : ℚ
deriving DecidableEq, Repr

def projIv (ax : Axis) (it : Item) : Iv :=
  match ax with
  | .x => ⟨it.x, it.x + it.width⟩
  | .y => ⟨it.y, it.y + it.height⟩

/-- Stable sort of the projected intervals by start coordinate. -/
def sortIvs (l : List Iv) : List Iv :=
  l.insertionSort (fun a b => a.s ≤ b.s)

/-- The interval-merging loop with tolerance 0.1. -/
def mergeIvs : Iv → List Iv → List Iv
  | cur, [] => [cur]
  | cur, nxt :: rest =>
    if nxt.s < cur.e - (1/10) then mergeIvs ⟨cur.s, max cur.e nxt.e⟩ rest
    else cur :: mergeIvs nxt rest

def adjPairs : List Iv → List (Iv × Iv)
  | a :: b :: rest => (a, b) :: adjPairs (b :: rest)
  | _ => []

/-- One step of the best-gap search: a qualifying gap strictly larger than the
best seen so far replaces it. -/
def bestGapStep (minSize : ℚ) (acc : Option ℚ × ℚ) (p : Iv × Iv) : Option ℚ × ℚ :=
  if minSize < p.2.s - p.1.e ∧ acc.2 < p.2.s - p.1.e then
    (some ((p.1.e + p.2.s) / 2), p.2.s - p.1.e)
  else acc

/-- findSplit (pdfService.ts lines 392-429). -/
def findSplit (list : List Item) (ax : Axis) : Option ℚ :=
  if (list.filter isContributor).length < 2 then none
  else
    match sortIvs ((list.filter isContributor).map (projIv ax)) with
    | [] => none
    | first :: rest =>
      ((adjPairs (mergeIvs first rest)).foldl (bestGapStep (minGapSize ax)) (none, 0)).1

def itemCenter (ax : Axis) (it : Item) : ℚ :=
  match ax with
  | .x => it.x + it.width / 2
  | .y => it.y + it.height / 2

/-- Items whose center lies before the split point. -/
def leftOf (ax : Axis) (g : ℚ) (list : List Item) : List Item :=
  list.filter (fun i => decide (itemCenter ax i < g))

/-- Items whose center lies at or after the split point. -/
def rightOf (ax : Axis) (g : ℚ) (list : List Item) : List Item :=
  list.filter (fun i => decide (g ≤ itemCenter ax i))

/-- The comparator of the atomic fallback sort: items further apart than 6
units vertically order by y, the rest by x.  JavaScript guarantees a stable
sort; the model uses a stable insertion sort driven by the comparator's
non-positive test. -/
def atomicLe (a b : Item) : Prop :=
  if 6 < jsAbs (a.y - b.y) then a.y ≤ b.y else a.x ≤ b.x

instance : DecidableRel atomicLe := fun a b => by
  unfold atomicLe
  infer_instance

/-- recursiveOrder (pdfService.ts lines 431-452) with explicit fuel; `none`
models non-termination of the JavaScript recursion. -/
def recursiveOrderFuel : ℕ → List Item → Option (List Item)
  | 0, _ => none
  | n + 1, list =>
    if list.length ≤ 1 then some list
    else
      match findSplit list Axis.x with
      | some g =>
        match recursiveOrderFuel n (leftOf Axis.x g list),
              recursiveOrderFuel n (rightOf Axis.x g list) with
        | some l, some r => some (l ++ r)
        | _, _ => none
      | none =>
        match findSplit list Axis.y with
        | some g =>
          match recursiveOrderFuel n (leftOf Axis.y g list),
                recursiveOrderFuel n (rightOf Axis.y g list) with
          | some l, some r => some (l ++ r)
          | _, _ => none
        | none => some (list.insertionSort atomicLe)

/-- reorderItemsByReadingFlow: the recursion depth never exceeds the item
count, so one unit of fuel per item plus one suffices. -/
def reorderItemsByReadingFlow (items : List Item) : Option (List Item) :=
  recursiveOrderFuel (items.length + 1) items

theorem bestGapFold_sound (minSize : ℚ) (ps : List (Iv × Iv)) (acc : Option ℚ × ℚ) (g : ℚ)
    (h : (ps.foldl (bestGapStep minSize) acc).1 = some g) :
    acc.1 = some g ∨ ∃ p ∈ ps, minSize < p.2.s - p.1.e ∧ g = (p.1.e + p.2.s) / 2 := by
  induction ps generalizing acc with
  | nil => exact Or.inl h
  | cons hd tl ih =>
    simp only [List.foldl_cons] at h
    rcases ih _ h with h1 | ⟨p, hp, hcond⟩
    · unfold bestGapStep at h1
      by_cases hc : minSize < hd.2.s - hd.1.e ∧ acc.2 < hd.2.s - hd.1.e
      · rw [if_pos hc] at h1
        simp only [Option.some.injEq] at h1
        exact Or.inr ⟨hd, List.mem_cons_self _ _, hc.1, h1.symm⟩
      · rw [if_neg hc] at h1
        exact Or.inl h1
    · exact Or.inr ⟨p, List.mem_cons_of_mem _ hp, hcond⟩

theorem adjPairs_mem : ∀ {l : List Iv} {p : Iv × Iv}, p ∈ adjPairs l → p.1 ∈ l ∧ p.2 ∈ l
  | [], p, h => absurd h (by simp [adjPairs])
  | [a], p, h => absurd h (by simp [adjPairs])
  | a :: b :: rest, p, h => by
    rw [show adjPairs (a :: b :: rest) = (a, b) :: adjPairs (b :: rest) from rfl] at h
    rcases List.mem_cons.mp h with rfl | h
    · exact ⟨List.mem_cons_self _ _, List.mem_cons_of_mem _ (List.mem_cons_self _ _)⟩
    · obtain ⟨h1, h2⟩ := adjPairs_mem h
      exact ⟨List.mem_cons_of_mem _ h1, List.mem_cons_of_mem _ h2⟩

theorem mergeIvs_start_mem : ∀ {l : List Iv} {cur m : Iv}, m ∈ mergeIvs cur l →
    ∃ i ∈ cur :: l, i.s = m.s
  | [], cur, m, h => by
    simp only [mergeIvs, List.mem_singleton] at h
    exact ⟨cur, List.mem_cons_self _ _, by rw [h]⟩
  | nxt :: rest, cur, m, h => by
    rw [mergeIvs] at h
    split at h
    · obtain ⟨i, hi, his⟩ := mergeIvs_start_mem h
      rcases List.mem_cons.mp hi with rfl | hi
      · exact ⟨cur, List.mem_cons_self _ _, his⟩
      · exact ⟨i, List.mem_cons_of_mem _ (List.mem_cons_of_mem _ hi), his⟩
    · rcases List.mem_cons.mp h with rfl | h
      · exact ⟨m, List.mem_cons_self _ _, rfl⟩
      · obtain ⟨i, hi, his⟩ := mergeIvs_start_mem h
        exact ⟨i, List.mem_cons_of_mem _ hi, his⟩

theorem mergeIvs_end_mem : ∀ {l : List Iv} {cur m : Iv}, m ∈ mergeIvs cur l →
    ∃ i ∈ cur :: l, i.e = m.e
  | [], cur, m, h => by
    simp only [mergeIvs, List.mem_singleton] at h
    exact ⟨cur, List.mem_cons_self _ _, by rw [h]⟩
  | nxt :: rest, cur, m, h => by
    rw [mergeIvs] at h
    split at h
    · obtain ⟨i, hi, hie⟩ := mergeIvs_end_mem h
      rcases List.mem_cons.mp hi with rfl | hi
      · rcases max_choice cur.e nxt.e with hmax | hmax
        · exact ⟨cur, List.mem_cons_self _ _, by rw [← hie]; exact hmax.symm⟩
        · refine ⟨nxt, List.mem_cons_of_mem _ (List.mem_cons_self _ _), ?_⟩
          rw [← hie]
          exact hmax.symm
      · exact ⟨i, List.mem_cons_of_mem _ (List.mem_cons_of_mem _ hi), hie⟩
    · rcases List.mem_cons.mp h with rfl | h
      · exact ⟨m, List.mem_cons_self _ _, rfl⟩
      · obtain ⟨i, hi, hie⟩ := mergeIvs_end_mem h
        exact ⟨i, List.mem_cons_of_mem _ hi, hie⟩

theorem mem_sortIvs {iv : Iv} {l : List Iv} : iv ∈ sortIvs l ↔ iv ∈ l :=
  (List.perm_insertionSort _ _).mem_iff

theorem minGapSize_pos (ax : Axis) : 0 < minGapSize ax := by
  cases ax <;> norm_num [minGapSize]

theorem itemCenter_le_projIv_e {ax : Axis} {it : Item}
    (hws : 0 ≤ it.width ∧ 0 ≤ it.height) : itemCenter ax it ≤ (projIv ax it).e := by
  cases ax
  · show it.x + it.width / 2 ≤ it.x + it.width
    linarith [hws.1]
  · show it.y + it.height / 2 ≤ it.y + it.height
    linarith [hws.2]

theorem projIv_s_le_itemCenter {ax : Axis} {it : Item}
    (hws : 0 ≤ it.width ∧ 0 ≤ it.height) : (projIv ax it).s ≤ itemCenter ax it := by
  cases ax
  · show it.x ≤ it.x + it.width / 2
    linarith [hws.1]
  · show it.y ≤ it.y + it.height / 2
    linarith [hws.2]

theorem findSplit_some_length {list : List Item} {ax : Axis} {g : ℚ}
    (h : findSplit list ax = some g) : 2 ≤ list.length := by
  unfold findSplit at h
  by_cases hlen : (list.filter isContributor).length < 2
  · rw [if_pos hlen] at h
    exact absurd h (by simp)
  · have hle := List.length_filter_le isContributor list
    omega

theorem findSplit_partition {list : List Item} {ax : Axis} {g : ℚ}
    (hws : ∀ it ∈ list, 0 ≤ it.width ∧ 0 ≤ it.height)
    (h : findSplit list ax = some g) :
    leftOf ax g list ≠ [] ∧ rightOf ax g list ≠ [] := by
  unfold findSplit at h
  by_cases hlen : (list.filter isContributor).length < 2
  · rw [if_pos hlen] at h
    exact absurd h (by simp)
  rw [if_neg hlen] at h
  cases hsort : sortIvs ((list.filter isContributor).map (projIv ax)) with
  | nil =>
    rw [hsort] at h
    exact absurd h (by simp)
  | cons first rest =>
    rw [hsort] at h
    rcases bestGapFold_sound _ _ _ _ h with hnone | ⟨p, hp, hgap, hmid⟩
    · exact absurd hnone (by simp)
    have hlt1 : p.1.e < g := by
      rw [hmid]
      have := minGapSize_pos ax
      linarith
    have hlt2 : g < p.2.s := by
      rw [hmid]
      have := minGapSize_pos ax
      linarith
    obtain ⟨hp1, hp2⟩ := adjPairs_mem hp
    obtain ⟨iv1, hiv1mem, hiv1e⟩ := mergeIvs_end_mem hp1
    obtain ⟨iv2, hiv2mem, hiv2s⟩ := mergeIvs_start_mem hp2
    rw [← hsort] at hiv1mem hiv2mem
    obtain ⟨t1, ht1mem, ht1proj⟩ := List.mem_map.mp (mem_sortIvs.mp hiv1mem)
    obtain ⟨t2, ht2mem, ht2proj⟩ := List.mem_map.mp (mem_sortIvs.mp hiv2mem)
    have ht1list : t1 ∈ list := List.mem_of_mem_filter ht1mem
    have ht2list : t2 ∈ list := List.mem_of_mem_filter ht2mem
    constructor
    · have hc1 : itemCenter ax t1 < g := by
        have hle := @itemCenter_le_projIv_e ax t1 (hws t1 ht1list)
        rw [ht1proj] at hle
        rw [hiv1e] at hle
        exact lt_of_le_of_lt hle hlt1
      exact List.ne_nil_of_mem (List.mem_filter.mpr ⟨ht1list, by simpa using hc1⟩)
    · have hc2 : g ≤ itemCenter ax t2 := by
        have hle := @projIv_s_le_itemCenter ax t2 (hws t2 ht2list)
        rw [ht2proj] at hle
        rw [hiv2s] at hle
        exact le_trans (le_of_lt hlt2) hle
      exact List.ne_nil_of_mem (List.mem_filter.mpr ⟨ht2list, by simpa using hc2⟩)

theorem rightOf_eq_not_leftOf (ax : Axis) (g : ℚ) (list : List Item) :
    rightOf ax g list = list.filter (fun i => !(decide (itemCenter ax i < g))) := by
  unfold rightOf
  apply List.filter_congr
  intro i _
  by_cases h : itemCenter ax i < g
  · simp [h, not_le.mpr h]
  · simp [h, not_lt.mp h]

theorem leftOf_append_rightOf_perm (ax : Axis) (g : ℚ) (list : List Item) :
    (leftOf ax g list ++ rightOf ax g list).Perm list := by
  rw [rightOf_eq_not_leftOf]
  exact List.filter_append_perm _ list

theorem leftOf_rightOf_length (ax : Axis) (g : ℚ) (list : List Item) :
    (leftOf ax g list).length + (rightOf ax g list).length = list.length := by
  have := (leftOf_append_rightOf_perm ax g list).length_eq
  simpa [List.length_append] using this

theorem recursiveOrderFuel_total : ∀ (fuel : ℕ) (list : List Item),
    list.length < fuel →
    (∀ it ∈ list, 0 ≤ it.width ∧ 0 ≤ it.height) →
    ∃ out, recursiveOrderFuel fuel list = some out ∧ out.Perm list := by
  intro fuel
  induction fuel with
  | zero =>
    intro list h
    omega
  | succ n ih =>
    intro list hlen hws
    by_cases hsmall : list.length ≤ 1
    · exact ⟨list, by simp [recursiveOrderFuel, hsmall], List.Perm.refl _⟩
    cases hx : findSplit list Axis.x with
    | some g =>
      obtain ⟨hlne, hrne⟩ := findSplit_partition hws hx
      have hsum := leftOf_rightOf_length Axis.x g list
      have hlpos : 1 ≤ (leftOf Axis.x g list).length :=
        List.length_pos.mpr hlne
      have hrpos : 1 ≤ (rightOf Axis.x g list).length :=
        List.length_pos.mpr hrne
      obtain ⟨l, hl, hlperm⟩ := ih (leftOf Axis.x g list) (by omega)
        (fun it hit => hws it (List.mem_of_mem_filter hit))
      obtain ⟨r, hr, hrperm⟩ := ih (rightOf Axis.x g list) (by omega)
        (fun it hit => hws it (List.mem_of_mem_filter hit))
      refine ⟨l ++ r, ?_, (hlperm.append hrperm).trans (leftOf_append_rightOf_perm _ _ _)⟩
      simp only [recursiveOrderFuel, if_neg hsmall, hx, hl, hr]
    | none =>
      cases hy : findSplit list Axis.y with
      | some g =>
        obtain ⟨hlne, hrne⟩ := findSplit_partition hws hy
        have hsum := leftOf_rightOf_length Axis.y g list
        have hlpos : 1 ≤ (leftOf Axis.y g list).length :=
          List.length_pos.mpr hlne
        have hrpos : 1 ≤ (rightOf Axis.y g list).length :=
          List.length_pos.mpr hrne
        obtain ⟨l, hl, hlperm⟩ := ih (leftOf Axis.y g list) (by omega)
          (fun it hit => hws it (List.mem_of_mem_filter hit))
        obtain ⟨r, hr, hrperm⟩ := ih (rightOf Axis.y g list) (by omega)
          (fun it hit => hws it (List.mem_of_mem_filter hit))
        refine ⟨l ++ r, ?_, (hlperm.append hrperm).trans (leftOf_append_rightOf_perm _ _ _)⟩
        simp only [recursiveOrderFuel, if_neg hsmall, hx, hy, hl, hr]
      | none =>
        refine ⟨list.insertionSort atomicLe, ?_, List.perm_insertionSort _ _⟩
        simp only [recursiveOrderFuel, if_neg hsmall, hx, hy]

/-- Claim C1: on items satisfying the data-model invariant of non-negative
widths and heights, the Reading-Order Reconstructor terminates (the recursion
depth stays within the fuel bound) and returns a permutation of its input:
no item is dropped or duplicated. -/
theorem C1_reorderPermutation (items : List Item)
    (h : ∀ it ∈ items, 0 ≤ it.width ∧ 0 ≤ it.height) :
    ∃ out, reorderItemsByReadingFlow items = some out ∧ out.Perm items :=
  recursiveOrderFuel_total (items.length + 1) items (by omega) h

/-- The left column item of the two-column scenario. -/
def leftColItem : Item :=
  Item.text { paraItem with text := "left", x := 0, y := 0, width := 100, height := 10 }

/-- The right column item of the two-column scenario. -/
def rightColItem : Item :=
  Item.text { paraItem with text := "right", x := 150, y := 0, width := 100, height := 10 }

/-- The top item of the stacked-rows scenario. -/
def topRowItem : Item :=
  Item.text { paraItem with text := "top", x := 0, y := 0, width := 100, height := 10 }

/-- The bottom item of the stacked-rows scenario, 50 units below the top
item's bottom edge. -/
def bottomRowItem : Item :=
  Item.text { paraItem with text := "bottom", x := 0, y := 60, width := 100, height := 10 }

/-- Witness for C1 on the concrete two-column page. -/
theorem C1_reorderPermutation_witness :
    ∃ out, reorderItemsByReadingFlow [rightColItem, leftColItem] = some out ∧
      out.Perm [rightColItem, leftColItem] :=
  C1_reorderPermutation [rightColItem, leftColItem] (by with_unfolding_all decide)

/-- Claim C5: whenever an x-split exists the recursion takes it (the y axis is
never consulted), and the two concrete scenarios reconstruct [left, right]
and [top, bottom] from reversed input order. -/
theorem C5_columnPriority (list : List Item) (g : ℚ) (fuel : ℕ)
    (h : findSplit list Axis.x = some g) :
    recursiveOrderFuel (fuel + 1) list =
      (match recursiveOrderFuel fuel (leftOf Axis.x g list),
             recursiveOrderFuel fuel (rightOf Axis.x g list) with
       | some l, some r => some (l ++ r)
       | _, _ => none) ∧
    reorderItemsByReadingFlow [rightColItem, leftColItem] = some [leftColItem, rightColItem] ∧
    reorderItemsByReadingFlow [bottomRowItem, topRowItem] = some [topRowItem, bottomRowItem] := by
  refine ⟨?_, by with_unfolding_all rfl, by with_unfolding_all rfl⟩
  have hlen : ¬ list.length ≤ 1 := by
    have := findSplit_some_length h
    omega
  simp only [recursiveOrderFuel, if_neg hlen, h]

/-- Witness for C5 at the concrete two-column page; the x-split is at 125. -/
theorem C5_columnPriority_witness :
    findSplit [rightColItem, leftColItem] Axis.x = some 125 ∧
    reorderItemsByReadingFlow [rightColItem, leftColItem] = some [leftColItem, rightColItem] :=
  ⟨by with_unfolding_all rfl,
   (C5_columnPriority [rightColItem, leftColItem] 125 1 (by with_unfolding_all rfl)).2.1⟩

/-! ## Line Grouper (extractPdfStructure, pdfService.ts lines 529-602).
Math.sqrt of the transform is passed as a function parameter; a raw glyph run
carries the four transform entries used by the code. -/

structure Run where
  str : String
  t0 : ℚ
  t1 : ℚ
  tx : ℚ
  ty : ℚ
  width : ℚ
  fontName : String
deriving DecidableEq, Repr

/-- Runs whose text is non-empty after trimming are kept. -/
def keptRuns (runs : List Run) : List Run :=
  runs.filter (fun r => decide (0 < (jsTrim r.str).length))

/-- The line bucket key: Math.round(y × 2) / 2. -/
def lineKey (r : Run) : ℚ := ((jsRound (r.ty * 2) : ℤ) : ℚ) / 2

/-- The distinct line keys sorted descending (top of page first). -/
def sortedKeysDesc (runs : List Run) : List ℚ :=
  ((runs.map lineKey).dedup).insertionSort (fun a b => b ≤ a)

/-- The runs of one line, in left-to-right order by x. -/
def lineRunsSorted (runs : List Run) (k : ℚ) : List Run :=
  (runs.filter (fun r => decide (lineKey r = k))).insertionSort (fun a b => a.tx ≤ b.tx)

/-- ASCII lower-casing; it agrees with JavaScript toLowerCase on whether the
result contains the substring bold, which is all the grouper asks of it. -/
def asciiLower (c : Char) : Char :=
  if 65 ≤ c.toNat ∧ c.toNat ≤ 90 then Char.ofNat (c.toNat + 32) else c

def containsBold (s : String) : Bool :=
  decide (("bold".data).IsInfix (s.data.map asciiLower))

/-- The alignment decision made when a text group is created (pdfService.ts
lines 589-595). -/
def assignAlignment (viewportW x width : ℚ) : Option Alignment :=
  if jsAbs ((x + width / 2) - viewportW / 2) < 15 then some Alignment.center
  else if viewportW * (13/20) < x then some Alignment.right
  else none

/-- A freshly created text group (pdfService.ts lines 563-595). -/
def newGroup (sqrtFn : ℚ → ℚ) (viewportW viewportH paraGapThreshold : ℚ)
    (prevY prevX k : ℚ) (r : Run) : PdfTextItem :=
  let fontSize := sqrtFn (r.t0 ^ 2 + r.t1 ^ 2)
  let gap := if prevY ≠ -1 then jsAbs (prevY - k) else 0
  let isNewParagraph := prevY = -1 ∨ paraGapThreshold < gap
  let indent :=
    if isNewParagraph ∧ prevX ≠ -1 ∧ 10 < r.tx - prevX ∧ r.tx - prevX < 80
    then r.tx - prevX else 0
  { text := r.str
    x := r.tx
    y := viewportH - k - fontSize
    width := r.width
    height := fontSize
    fontSize := fontSize
    fontName := if r.fontName = "" then "sans-serif" else r.fontName
    isBold := containsBold r.fontName
    isParagraphStart := isNewParagraph
    indent := indent
    alignment := assignAlignment viewportW r.tx r.width }

/-- Fusing a run into the current group on the same line (pdfService.ts
lines 558-562): the text grows (with a space when the gap exceeds 0.3 of a
character width) and the width extends to the run's right edge; x, y and the
alignment are untouched. -/
def mergeRunInto (g : PdfTextItem) (r : Run) : PdfTextItem :=
  let charWidth := r.width / (r.str.length : ℚ)
  let gap := r.tx - (g.x + g.width)
  let text2 := if charWidth * (3/10) < gap then g.text ++ " " ++ r.str else g.text ++ r.str
  { g with text := text2, width := (r.tx + r.width) - g.x }

/-- The run joins the current group when the gap to the group's right edge is
below max(charWidth × 2.5, 12). -/
def runFitsGroup (g : PdfTextItem) (r : Run) : Prop :=
  r.tx - (g.x + g.width) < max ((r.width / (r.str.length : ℚ)) * (5/2)) 12

instance : ∀ g r, Decidable (runFitsGroup g r) := fun g r => by
  unfold runFitsGroup
  infer_instance

/-- One step of the within-line loop.  The state carries the current group,
the emitted items and the running previousY/previousX. -/
def lineStep (sqrtFn : ℚ → ℚ) (vw vh paraGap k : ℚ)
    (st : Option PdfTextItem × List PdfTextItem × ℚ × ℚ) (r : Run) :
    Option PdfTextItem × List PdfTextItem × ℚ × ℚ :=
  match st.1 with
  | some g =>
    if runFitsGroup g r then
      (some (mergeRunInto g r), st.2.1, st.2.2.1, st.2.2.2)
    else
      (some (newGroup sqrtFn vw vh paraGap st.2.2.1 st.2.2.2 k r), st.2.1 ++ [g], k, r.tx)
  | none =>
    (some (newGroup sqrtFn vw vh paraGap st.2.2.1 st.2.2.2 k r), st.2.1, k, r.tx)

/-- Processing one line: fold its runs and flush the final group. -/
def processLine (sqrtFn : ℚ → ℚ) (vw vh paraGap : ℚ)
    (st : List PdfTextItem × ℚ × ℚ) (k : ℚ) (lruns : List Run) :
    List PdfTextItem × ℚ × ℚ :=
  let fin := lruns.foldl (lineStep sqrtFn vw vh paraGap k) (none, st.1, st.2.1, st.2.2)
  (fin.2.1 ++ fin.1.toList, fin.2.2.1, fin.2.2.2)

/-- The per-page text grouping of extractPdfStructure: bucket runs into lines,
derive the line-spacing stats, and fold the lines top to bottom. -/
def groupRuns (sqrtFn : ℚ → ℚ) (vw vh : ℚ) (runs : List Run) : List PdfTextItem :=
  let kept := keptRuns runs
  let keys := sortedKeysDesc kept
  let paraGap := (calculateLineSpacingStats keys).2
  (keys.foldl (fun st k => processLine sqrtFn vw vh paraGap st k (lineRunsSorted kept k))
    (([], -1, -1) : List PdfTextItem × ℚ × ℚ)).1

/-- A produced item that stems from a run: its x is the run's x and its
alignment was computed from the run's geometry at creation time. -/
def FromRun (vw : ℚ) (runs : List Run) (it : PdfTextItem) : Prop :=
  ∃ r ∈ runs, it.x = r.tx ∧ it.alignment = assignAlignment vw r.tx r.width

theorem newGroup_fromRun {vw : ℚ} {runs : List Run} {r : Run} (hr : r ∈ runs)
    (sqrtFn : ℚ → ℚ) (vh paraGap prevY prevX k : ℚ) :
    FromRun vw runs (newGroup sqrtFn vw vh paraGap prevY prevX k r) :=
  ⟨r, hr, rfl, rfl⟩

theorem mergeRunInto_fromRun {vw : ℚ} {runs : List Run} {g : PdfTextItem}
    (hg : FromRun vw runs g) (r : Run) : FromRun vw runs (mergeRunInto g r) := by
  obtain ⟨r0, hr0, hx, hal⟩ := hg
  exact ⟨r0, hr0, hx, hal⟩

theorem lineFold_fromRun (sqrtFn : ℚ → ℚ) (vw vh paraGap k : ℚ) (runs : List Run) :
    ∀ (lruns : List Run) (st : Option PdfTextItem × List PdfTextItem × ℚ × ℚ),
      (∀ r ∈ lruns, r ∈ runs) →
      (∀ g, st.1 = some g → FromRun vw runs g) →
      (∀ it ∈ st.2.1, FromRun vw runs it) →
      (∀ g, (lruns.foldl (lineStep sqrtFn vw vh paraGap k) st).1 = some g →
        FromRun vw runs g) ∧
      (∀ it ∈ (lruns.foldl (lineStep sqrtFn vw vh paraGap k) st).2.1,
        FromRun vw runs it) := by
  intro lruns
  induction lruns with
  | nil =>
    intro st _ hcur hemit
    exact ⟨hcur, hemit⟩
  | cons r rest ih =>
    intro st hsub hcur hemit
    simp only [List.foldl_cons]
    apply ih
    · intro r2 hr2
      exact hsub r2 (List.mem_cons_of_mem _ hr2)
    · intro g hg
      unfold lineStep at hg
      cases hst : st.1 with
      | some g0 =>
        rw [hst] at hg
        simp only at hg
        by_cases hfit : runFitsGroup g0 r
        · rw [if_pos hfit] at hg
          simp only [Option.some.injEq] at hg
          exact hg ▸ mergeRunInto_fromRun (hcur g0 hst) r
        · rw [if_neg hfit] at hg
          simp only [Option.some.injEq] at hg
          exact hg ▸ newGroup_fromRun (hsub r (List.mem_cons_self _ _)) sqrtFn vh paraGap _ _ k
      | none =>
        rw [hst] at hg
        simp only [Option.some.injEq] at hg
        exact hg ▸ newGroup_fromRun (hsub r (List.mem_cons_self _ _)) sqrtFn vh paraGap _ _ k
    · intro it hit
      unfold lineStep at hit
      cases hst : st.1 with
      | some g0 =>
        rw [hst] at hit
        simp only at hit
        by_cases hfit : runFitsGroup g0 r
        · rw [if_pos hfit] at hit
          exact hemit it hit
        · rw [if_neg hfit] at hit
          simp only [List.mem_append, List.mem_singleton] at hit
          rcases hit with hit | rfl
          · exact hemit it hit
          · exact hcur it hst
      | none =>
        rw [hst] at hit
        exact hemit it hit

theorem processLine_fromRun (sqrtFn : ℚ → ℚ) (vw vh paraGap : ℚ) (runs : List Run)
    (st : List PdfTextItem × ℚ × ℚ) (k : ℚ) (lruns : List Run)
    (hsub : ∀ r ∈ lruns, r ∈ runs)
    (hemit : ∀ it ∈ st.1, FromRun vw runs it) :
    ∀ it ∈ (processLine sqrtFn vw vh paraGap st k lruns).1, FromRun vw runs it := by
  intro it hit
  unfold processLine at hit
  obtain ⟨hcur2, hemit2⟩ := lineFold_fromRun sqrtFn vw vh paraGap k runs lruns
    (none, st.1, st.2.1, st.2.2) hsub (by intro g hg; exact absurd hg (by simp)) hemit
  simp only [List.mem_append] at hit
  rcases hit with hit | hit
  · exact hemit2 it hit
  · cases hfin : (lruns.foldl (lineStep sqrtFn vw vh paraGap k) (none, st.1, st.2.1, st.2.2)).1 with
    | none =>
      rw [hfin] at hit
      exact absurd hit (by simp)
    | some g =>
      rw [hfin] at hit
      simp only [Option.toList_some, List.mem_singleton] at hit
      exact hit ▸ hcur2 g hfin

theorem lineRunsSorted_subset {runs : List Run} {k : ℚ} {r : Run}
    (h : r ∈ lineRunsSorted (keptRuns runs) k) : r ∈ runs := by
  unfold lineRunsSorted at h
  have h2 := (List.perm_insertionSort _ _).mem_iff.mp h
  exact List.mem_of_mem_filter (List.mem_of_mem_filter h2)

theorem groupRuns_fromRun (sqrtFn : ℚ → ℚ) (vw vh : ℚ) (runs : List Run) :
    ∀ it ∈ groupRuns sqrtFn vw vh runs, FromRun vw runs it := by
  have main : ∀ (ks : List ℚ) (st : List PdfTextItem × ℚ × ℚ),
      (∀ it ∈ st.1, FromRun vw runs it) →
      ∀ it ∈ (ks.foldl
          (fun st k => processLine sqrtFn vw vh
            (calculateLineSpacingStats (sortedKeysDesc (keptRuns runs))).2 st k
            (lineRunsSorted (keptRuns runs) k))
          st).1,
        FromRun vw runs it := by
    intro ks
    induction ks with
    | nil => intro st h; exact h
    | cons k rest ih =>
      intro st h
      simp only [List.foldl_cons]
      apply ih
      exact processLine_fromRun sqrtFn vw vh _ runs st k _
        (fun r hr => lineRunsSorted_subset hr) h
  intro it hit
  exact main (sortedKeysDesc (keptRuns runs)) ([], -1, -1)
    (by intro t ht; exact absurd ht (by simp)) it hit

theorem assignAlignment_spec (vw x width : ℚ) :
    (assignAlignment vw x width = some Alignment.center ↔
      jsAbs ((x + width / 2) - vw / 2) < 15) ∧
    (assignAlignment vw x width = some Alignment.right ↔
      (¬ jsAbs ((x + width / 2) - vw / 2) < 15 ∧ vw * (13/20) < x)) ∧
    (assignAlignment vw x width = none ↔
      (¬ jsAbs ((x + width / 2) - vw / 2) < 15 ∧ ¬ vw * (13/20) < x)) := by
  unfold assignAlignment
  by_cases h1 : jsAbs ((x + width / 2) - vw / 2) < 15
  · simp [h1]
  · by_cases h2 : vw * (13/20) < x <;> simp [h1, h2]

/-- A first glyph run of 85 units starting at x = 0 on a 200-unit page. -/
def r1Run : Run :=
  { str := "first fragment of a line", t0 := 10, t1 := 0, tx := 0, ty := 500,
    width := 85, fontName := "F1" }

/-- A second run of 120 units at x = 90: its 5-unit gap is below the merge
threshold, so it widens the first group to 210 units. -/
def r2Run : Run :=
  { str := "second frag.", t0 := 10, t1 := 0, tx := 90, ty := 500,
    width := 120, fontName := "F1" }

set_option maxRecDepth 4000 in
/-- Claim C9 counterexample: the produced item for the line r1Run/r2Run spans
x = 0, width = 210 on a 200-unit page, so its center 105 lies within 15 units
of the midpoint 100, yet its alignment is not center: the alignment was
decided at creation (center 42.5) before the same-line merge widened it. -/
theorem C9_counterexample :
    ∃ it ∈ groupRuns (fun q => q) 200 1000 [r1Run, r2Run],
      jsAbs ((it.x + it.width / 2) - 200 / 2) < 15 ∧
      it.alignment ≠ some Alignment.center := by
  with_unfolding_all decide

/-- Claim C9 (amended): alignment is assigned when a text group is created,
from the creating run's x and width: center exactly when that initial center
is within 15 units of the page midpoint, right exactly when it is not center
and x exceeds 65% of the page width, and unset otherwise; same-line merges
never update it, so every produced item carries the alignment of its creating
run, not of its final span. -/
theorem C9_alignmentAssignment (sqrtFn : ℚ → ℚ) (vw vh : ℚ) (runs : List Run) :
    (∀ x width : ℚ,
      (assignAlignment vw x width = some Alignment.center ↔
        jsAbs ((x + width / 2) - vw / 2) < 15) ∧
      (assignAlignment vw x width = some Alignment.right ↔
        (¬ jsAbs ((x + width / 2) - vw / 2) < 15 ∧ vw * (13/20) < x)) ∧
      (assignAlignment vw x width = none ↔
        (¬ jsAbs ((x + width / 2) - vw / 2) < 15 ∧ ¬ vw * (13/20) < x))) ∧
    (∀ (g : PdfTextItem) (r : Run), (mergeRunInto g r).alignment = g.alignment) ∧
    (∀ (paraGap prevY prevX k : ℚ) (r : Run),
      (newGroup sqrtFn vw vh paraGap prevY prevX k r).alignment
        = assignAlignment vw r.tx r.width) ∧
    (∀ it ∈ groupRuns sqrtFn vw vh runs, ∃ r ∈ runs,
      it.x = r.tx ∧ it.alignment = assignAlignment vw r.tx r.width) :=
  ⟨fun x width => assignAlignment_spec vw x width,
   fun _ _ => rfl,
   fun _ _ _ _ _ => rfl,
   groupRuns_fromRun sqrtFn vw vh runs⟩

/-! ## translatePdfStructure (geminiService).  The translation service is an
external collaborator: its per-batch responses and per-table responses are
passed as oracle functions; `none` models a failed call, a response list that
is shorter or longer than the request batch models the mismatch path. -/

def isTranslatableText : Item → Bool
  | .text t => decide (0 < (jsTrim t.text).length)
  | _ => false

/-- Indices of the text items with non-empty trimmed text. -/
def textIndices (items : List Item) : List ℕ :=
  (items.enum.filter (fun p => isTranslatableText p.2)).map (fun p => p.1)

/-- The texts shipped to the translation service, in index order. -/
def textContents (items : List Item) : List String :=
  (items.filter isTranslatableText).map
    (fun it =>
      match it with
      | .text t => t.text
      | _ => "")

/-- Replace the text field when the item is a text item. -/
def setTextOne (s : String) : Item → Item
  | Item.text t => Item.text { t with text := s }
  | other => other

/-- Replace the text field of the (text) item at an index. -/
def setTextAt : List Item → ℕ → String → List Item
  | [], _, _ => []
  | it :: rest, 0, s => setTextOne s it :: rest
  | it :: rest, n + 1, s => it :: setTextAt rest n s

/-- Write one response batch back: position i+bIdx of the text-index list
receives response entry bIdx, for bIdx below both lengths. -/
def applyBatch (tIdx : List ℕ) (k : ℕ) (batchLen : ℕ) (ts : List String)
    (items : List Item) : List Item :=
  (List.range (min ts.length batchLen)).foldl
    (fun acc b =>
      match tIdx.get? (40 * k + b), ts.get? b with
      | some idx, some s => setTextAt acc idx s
      | _, _ => acc) items

def numBatches (n : ℕ) : ℕ := (n + 39) / 40

/-- The batched text-translation loop (BATCH_SIZE = 40); a failed batch keeps
the original text. -/
def applyBatches (resp : ℕ → Option (List String)) (tIdx : List ℕ) (tTxt : List String)
    (items : List Item) : List Item :=
  (List.range (numBatches tTxt.length)).foldl
    (fun acc k =>
      match resp k with
      | none => acc
      | some ts => applyBatch tIdx k ((tTxt.drop (40 * k)).take 40).length ts acc)
    items

/-- Replace the rows when the item is a table and the response succeeded. -/
def setRowsOne (tr : Option (List PdfTableRow)) : Item → Item
  | Item.table tb =>
    match tr with
    | some rows => Item.table { tb with rows := rows }
    | none => Item.table tb
  | other => other

/-- The table-translation loop: a successful response replaces the rows. -/
def applyTablesFrom (tresp : ℕ → Option (List PdfTableRow)) : ℕ → List Item → List Item
  | _, [] => []
  | i, it :: rest => setRowsOne (tresp i) it :: applyTablesFrom tresp (i + 1) rest

def translatePage (resp : ℕ → Option (List String)) (tresp : ℕ → Option (List PdfTableRow))
    (items : List Item) : List Item :=
  applyTablesFrom tresp 0 (applyBatches resp (textIndices items) (textContents items) items)

/-- The page loop of translatePdfStructure: each page keeps its width and
height and receives the translated copy of its items. -/
def translatePagesFrom (resp : ℕ → ℕ → Option (List String))
    (tresp : ℕ → ℕ → Option (List PdfTableRow)) : ℕ → List PdfPage → List PdfPage
  | _, [] => []
  | i, p :: rest =>
    { items := translatePage (resp i) (tresp i) p.items
      width := p.width
      height := p.height } :: translatePagesFrom resp tresp (i + 1) rest

def translatePdfStructure (resp : ℕ → ℕ → Option (List String))
    (tresp : ℕ → ℕ → Option (List PdfTableRow)) (st : PdfStructure) : PdfStructure :=
  { pages := translatePagesFrom resp tresp 0 st.pages }

/-- The frame relation of C10: the right item is the left item with at most
its text (for text items) or its rows (for table items) replaced; images and
paths are untouched and the constructor never changes. -/
def frameAgree : Item → Item → Prop
  | .text a, .text b =>
    a.x = b.x ∧ a.y = b.y ∧ a.width = b.width ∧ a.height = b.height ∧
    a.fontSize = b.fontSize ∧ a.fontName = b.fontName ∧ a.isBold = b.isBold ∧
    a.isParagraphStart = b.isParagraphStart ∧ a.indent = b.indent ∧
    a.alignment = b.alignment
  | .image a, .image b => a = b
  | .path a, .path b => a = b
  | .table a, .table b =>
    a.x = b.x ∧ a.y = b.y ∧ a.width = b.width ∧ a.height = b.height ∧
    a.hasBorders = b.hasBorders
  | _, _ => False

theorem frameAgree_refl : ∀ it : Item, frameAgree it it
  | .text _ => ⟨rfl, rfl, rfl, rfl, rfl, rfl, rfl, rfl, rfl, rfl⟩
  | .image _ => rfl
  | .path _ => rfl
  | .table _ => ⟨rfl, rfl, rfl, rfl, rfl⟩

theorem frameAgree_setOne {a b : Item} (h : frameAgree a b) (s : String) :
    frameAgree a (setTextOne s b) := by
  cases a <;> cases b <;> exact h

theorem frameAgree_setText : ∀ {orig m : List Item},
    List.Forall₂ frameAgree orig m →
    ∀ (idx : ℕ) (s : String), List.Forall₂ frameAgree orig (setTextAt m idx s) := by
  intro orig m h
  induction h with
  | nil =>
    intro idx s
    exact List.Forall₂.nil
  | @cons a b l1 l2 hab htl ih =>
    intro idx s
    cases idx with
    | zero => exact List.Forall₂.cons (frameAgree_setOne hab s) htl
    | succ n => exact List.Forall₂.cons hab (ih n s)

theorem foldl_preserve_frame {α : Type} (orig : List Item)
    (f : List Item → α → List Item)
    (hf : ∀ m a, List.Forall₂ frameAgree orig m → List.Forall₂ frameAgree orig (f m a)) :
    ∀ (l : List α) (m : List Item), List.Forall₂ frameAgree orig m →
      List.Forall₂ frameAgree orig (l.foldl f m) := by
  intro l
  induction l with
  | nil => intro m h; exact h
  | cons a rest ih =>
    intro m h
    exact ih _ (hf m a h)

theorem frameAgree_applyBatch (orig : List Item) (tIdx : List ℕ) (k batchLen : ℕ)
    (ts : List String) (m : List Item) (h : List.Forall₂ frameAgree orig m) :
    List.Forall₂ frameAgree orig (applyBatch tIdx k batchLen ts m) := by
  unfold applyBatch
  apply foldl_preserve_frame orig _ _ _ _ h
  intro m2 b h2
  cases tIdx.get? (40 * k + b) with
  | none => exact h2
  | some idx =>
    cases ts.get? b with
    | none => exact h2
    | some s => exact frameAgree_setText h2 idx s

theorem frameAgree_applyBatches (orig : List Item) (resp : ℕ → Option (List String))
    (tIdx : List ℕ) (tTxt : List String) (m : List Item)
    (h : List.Forall₂ frameAgree orig m) :
    List.Forall₂ frameAgree orig (applyBatches resp tIdx tTxt m) := by
  unfold applyBatches
  apply foldl_preserve_frame orig _ _ _ _ h
  intro m2 k h2
  cases resp k with
  | none => exact h2
  | some ts => exact frameAgree_applyBatch orig tIdx k _ ts m2 h2

theorem frameAgree_setRowsOne {a b : Item} (h : frameAgree a b)
    (tr : Option (List PdfTableRow)) : frameAgree a (setRowsOne tr b) := by
  cases tr <;> cases a <;> cases b <;> exact h

theorem frameAgree_applyTables (tresp : ℕ → Option (List PdfTableRow)) :
    ∀ {orig m : List Item}, List.Forall₂ frameAgree orig m →
    ∀ i : ℕ, List.Forall₂ frameAgree orig (applyTablesFrom tresp i m) := by
  intro orig m h
  induction h with
  | nil =>
    intro i
    exact List.Forall₂.nil
  | @cons a b l1 l2 hab htl ih =>
    intro i
    rw [applyTablesFrom]
    exact List.Forall₂.cons (frameAgree_setRowsOne hab (tresp i)) (ih (i + 1))

theorem translatePage_frame (resp : ℕ → Option (List String))
    (tresp : ℕ → Option (List PdfTableRow)) (items : List Item) :
    List.Forall₂ frameAgree items (translatePage resp tresp items) := by
  unfold translatePage
  apply frameAgree_applyTables
  apply frameAgree_applyBatches
  exact List.forall₂_same.mpr (fun it _ => frameAgree_refl it)

/-- The frame relation between an input page and its translated page. -/
def pageFrame (p q : PdfPage) : Prop :=
  p.width = q.width ∧ p.height = q.height ∧
  p.items.length = q.items.length ∧ List.Forall₂ frameAgree p.items q.items

theorem translatePagesFrom_frame (resp : ℕ → ℕ → Option (List String))
    (tresp : ℕ → ℕ → Option (List PdfTableRow)) :
    ∀ (pages : List PdfPage) (i : ℕ),
      List.Forall₂ pageFrame pages (translatePagesFrom resp tresp i pages) := by
  intro pages
  induction pages with
  | nil =>
    intro i
    exact List.Forall₂.nil
  | cons p rest ih =>
    intro i
    rw [translatePagesFrom]
    refine List.Forall₂.cons ⟨rfl, rfl, ?_, ?_⟩ (ih (i + 1))
    · exact (translatePage_frame (resp i) (tresp i) p.items).length_eq
    · exact translatePage_frame (resp i) (tresp i) p.items

/-- Claim C10: for every structure and any behaviour of the external
translation service, the translated structure has the same number of pages,
each page keeps its width, height and item count and order, every item keeps
its constructor and its geometry, and every text item keeps its fontSize,
fontName and structural hints: only text fields (and table rows) change. -/
theorem C10_translateFrame (resp : ℕ → ℕ → Option (List String))
    (tresp : ℕ → ℕ → Option (List PdfTableRow)) (st : PdfStructure) :
    (translatePdfStructure resp tresp st).pages.length = st.pages.length ∧
    List.Forall₂ pageFrame st.pages (translatePdfStructure resp tresp st).pages :=
  ⟨(translatePagesFrom_frame resp tresp st.pages 0).length_eq.symm,
   translatePagesFrom_frame resp tresp st.pages 0⟩

end GoPal
